import Mathlib

/-!
# well-rng: shallow embedding of `src/rng.js` (WELL-1024a PRNG)

Words are modelled as JavaScript numbers restricted to integers (`Int`);
every bitwise operation first coerces its operands through ToInt32 /
ToUint32, exactly as JavaScript does.  We compute on the unsigned 32-bit
bit pattern (a `Nat` below `2^32`) and convert back to the signed
interpretation (`toSigned`) where the source stores or returns a value,
since JavaScript bitwise operators yield signed 32-bit integers.
-/

/-- `2^32`, the word modulus. -/
def U32 : Nat := 4294967296

/-- ToUint32: the unsigned 32-bit pattern of a JS integer. -/
def toUint32 (x : Int) : Nat := (x % (U32 : Int)).toNat

/-- Signed reading of a 32-bit pattern (two's complement). -/
def toSigned (p : Nat) : Int := if p < 2 ^ 31 then (p : Int) else (p : Int) - (U32 : Int)

/-- 32-bit left shift with high-bit discard (`shl` of the spec, JS `<<` on
patterns already reduced to 32 bits). -/
def shl32 (p k : Nat) : Nat := (p * 2 ^ k) % U32

/-- Arithmetic (sign-replicating) right shift on a 32-bit pattern
(JS `>>`): the vacated high `k` bits are filled with the sign bit. -/
def ashr32 (p k : Nat) : Nat := p / 2 ^ k + (if p < 2 ^ 31 then 0 else U32 - U32 / 2 ^ k)

/-- JS `x >> k` on numbers: coerce to a pattern, shift count mod 32,
result reinterpreted as signed. -/
def jsAshr (x : Int) (k : Int) : Int := toSigned (ashr32 (toUint32 x) ((k % 32).toNat))

/-- JS `x << k` on numbers. -/
def jsShl (x : Int) (k : Nat) : Int := toSigned (shl32 (toUint32 x) (k % 32))

/-- JS `x & y` on numbers. -/
def jsAnd (x y : Int) : Int := toSigned (Nat.land (toUint32 x) (toUint32 y))

/-- `WELL.prototype.positive_mask = Math.pow(2, 31)-1`. -/
def positive_mask : Int := 2 ^ 31 - 1

/-- `WELL.prototype.scale = 1 / (Math.pow(2, 31)-1)`; floats are modelled
as exact rationals. -/
def scale : ℚ := 1 / (2 ^ 31 - 1)

/-- The mutable fields of a `WELL` instance: `_state`, `_n`, `next_bit`,
`bit_state`.  `bit_state` starts out undefined in the source; ToInt32 of
undefined is 0, so the model starts it at 0. -/
structure WellState where
  state : List Int
  n : Int
  next_bit : Int
  bit_state : Int
deriving DecidableEq, Repr

/-- Validation error of `set_state` (`throw new TypeError(...)`). -/
inductive RngError where
  | InvalidStateLength
deriving DecidableEq, Repr

/-- `WELL.prototype.set_state`: validates the length, then stores the
pointer (`this._n = sp || 0`; for integer `sp` this is `sp` itself) and a
copy of the vector.  The error is raised before any field is assigned, so
an error leaves the instance untouched.  Note that `next_bit` and
`bit_state` are NOT modified. -/
def set_state (state : List Int) (sp : Int) (s : WellState) : Except RngError WellState :=
  if state.length ≠ 32 then .error .InvalidStateLength
  else .ok { s with n := sp, state := state }

/-- The constructor `WELL(state)` for a supplied seed vector:
`set_state(state, 0)` then `next_bit = 32`.  Fields never assigned before
a throw are modelled by the zero defaults of the pre-construction record. -/
def mkWELL (state : List Int) : Except RngError WellState :=
  (set_state state 0 { state := [], n := 0, next_bit := 0, bit_state := 0 }).map
    (fun s => { s with next_bit := 32 })

/-- Array read `_state[i]` as a 32-bit pattern (reads feeding bitwise
operators are coerced by ToInt32; a missing entry reads as undefined,
which coerces to 0). -/
def getW (st : List Int) (i : Nat) : Nat := toUint32 (st.getD i 0)

/-- The transition step of `WELL.prototype.rand` (lines 98-107 of
`src/rng.js`), returning the fresh raw word `_state[_n]` as a pattern
together with the updated instance.  Index expressions `(_n+k)&31` are
`(n+k) mod 32`; the two stores hit `_state[_n]` (the embedding writes at
`n.toNat`, faithful for the documented pointer range `0 ≤ _n < 32`) and
`_state[(_n+31)&31]`. -/
def randStep (s : WellState) : Nat × WellState :=
  let st := s.state
  let n := s.n
  let z0 := getW st ((n + 31) % 32).toNat
  let v_m1 := getW st ((n + 3) % 32).toNat
  let v_m2 := getW st ((n + 24) % 32).toNat
  let v_m3 := getW st ((n + 10) % 32).toNat
  let z1 := z0 ^^^ (v_m1 ^^^ ashr32 v_m1 8)
  let z2 := v_m2 ^^^ shl32 v_m2 19 ^^^ v_m3 ^^^ shl32 v_m3 14
  let st1 := st.set n.toNat (toSigned (z1 ^^^ z2))
  let n2 := (n + 31) % 32
  let w := z0 ^^^ shl32 z0 11 ^^^ z1 ^^^ shl32 z1 7 ^^^ z2 ^^^ shl32 z2 13
  (w, { s with state := st1.set n2.toNat (toSigned w), n := n2 })

/-- `WELL.prototype.rand`: one transition step, then return the new word
signed (`incNeg`) or masked with `positive_mask`. -/
def rand (incNeg : Bool) (s : WellState) : Int × WellState :=
  let r := randStep s
  (if incNeg then toSigned r.1 else jsAnd (toSigned r.1) positive_mask, r.2)

/-- `WELL.prototype.random`: `rand(incNeg) * scale`, floats as exact
rationals. -/
def random (incNeg : Bool) (s : WellState) : ℚ × WellState :=
  let r := rand incNeg s
  ((r.1 : ℚ) * scale, r.2)

/-- `WELL.prototype.randInt`: `(rand() % dist) + a` with
`dist = 1 + b - a`; JS `%` is the truncated remainder `Int.tmod`. -/
def randInt (a b : Int) (s : WellState) : Int × WellState :=
  let dist := 1 + b - a
  let r := rand false s
  (Int.tmod r.1 dist + a, r.2)

/-- `WELL.prototype.randBits`: serve from the cached word when
`bits + next_bit <= 32`, else refill via `rand(true)`. -/
def randBits (bits : Nat) (s : WellState) : Int × WellState :=
  let mask := jsShl 1 bits - 1
  if (bits : Int) + s.next_bit ≤ 32 then
    let unshift := s.next_bit
    (jsAnd (jsAshr s.bit_state unshift) mask, { s with next_bit := s.next_bit + bits })
  else
    let r := rand true s
    (jsAnd (jsAshr r.1 0) mask, { r.2 with bit_state := r.1, next_bit := bits })

/-- One element of a call sequence against a generator: the four
extraction operations. -/
inductive Call where
  | rand (incNeg : Bool)
  | random (incNeg : Bool)
  | randInt (a b : Int)
  | randBits (bits : Nat)
deriving DecidableEq, Repr

/-- An observed output: an integer (rand / randInt / randBits) or a
float-as-rational (random). -/
inductive Output where
  | int (i : Int)
  | rat (q : ℚ)
deriving DecidableEq, Repr

/-- Dispatch one call to the corresponding method. -/
def step (c : Call) (s : WellState) : Output × WellState :=
  match c with
  | .rand b => let r := rand b s; (.int r.1, r.2)
  | .random b => let r := random b s; (.rat r.1, r.2)
  | .randInt a b => let r := randInt a b s; (.int r.1, r.2)
  | .randBits k => let r := randBits k s; (.int r.1, r.2)

/-- Run a finite sequence of calls, collecting the outputs. -/
def runCalls (cs : List Call) (s : WellState) : List Output × WellState :=
  match cs with
  | [] => ([], s)
  | c :: rest =>
    let r := step c s
    let t := runCalls rest r.2
    (r.1 :: t.1, t.2)

/-!
## Heap model for array aliasing

`get_state` returns `this._state.slice(0)` and `set_state` stores
`state.slice(0)`: both allocate a fresh array.  To state copy isolation
(claim about mutating JS arrays after the call) we model a heap of arrays
addressed by allocation order; `slice(0)` is an allocation carrying the
current contents. -/

/-- The array heap: cell `r` holds the array allocated `r`-th. -/
abbrev Heap : Type := List (List Int)

/-- Read the array at address `r` (a dangling address reads empty). -/
def hread (h : Heap) (r : Nat) : List Int := List.getD h r []

/-- In-place mutation of the array at address `r`. -/
def hwrite (h : Heap) (r : Nat) (v : List Int) : Heap := List.set h r v

/-- Allocate a fresh array with contents `v` (what `slice(0)` does). -/
def halloc (h : Heap) (v : List Int) : Nat × Heap := (List.length h, h ++ [v])

/-- A `WELL` instance whose `_state` field is an array reference. -/
structure WellRef where
  stateRef : Nat
  n : Int
  next_bit : Int
  bit_state : Int
deriving DecidableEq, Repr

/-- `get_state` in the heap model: `return this._state.slice(0)` — a
fresh copy of the internal array. -/
def get_stateH (h : Heap) (w : WellRef) : Nat × Heap := halloc h (hread h w.stateRef)

/-- `set_state` in the heap model: validate the caller's array length,
then store the pointer and a fresh copy (`state.slice(0)`) of the
caller's array. -/
def set_stateH (h : Heap) (w : WellRef) (src : Nat) (sp : Int) :
    Except RngError (WellRef × Heap) :=
  if (hread h src).length ≠ 32 then .error .InvalidStateLength
  else
    let a := halloc h (hread h src)
    .ok ({ w with n := sp, stateRef := a.1 }, a.2)

/-- The pure generator state denoted by a heap instance: dereference the
state array.  All outputs of a heap instance are those of `runCalls` on
this projection. -/
def projH (h : Heap) (w : WellRef) : WellState :=
  { state := hread h w.stateRef, n := w.n, next_bit := w.next_bit, bit_state := w.bit_state }

/-- The all-zero 32-word seed. -/
def zeroSeed : List Int := List.replicate 32 0

/-- Reference vector 2 of the spec: all zero except word 3 equals 1. -/
def seedC1 : List Int := zeroSeed.set 3 1

/-- A 32-word seed whose first transition output has all 31 low bits set,
so that `rand(false)` returns `2^31 - 1` on the first call. -/
def seedMax : List Int := zeroSeed.set 3 1886367696

/-- A caller that invokes `set_state` and keeps its previous instance when
the validation error is thrown: used to state that a failed call mutates
nothing. -/
def importCaught (v : List Int) (sp : Int) (s : WellState) : WellState :=
  ((set_state v sp s).toOption).getD s

/-- The documented well-formedness invariant of an instance: a 32-word
state vector and a pointer in `[0, 32)`. -/
def WF (s : WellState) : Prop :=
  s.state.length = 32 ∧ 0 ≤ s.n ∧ s.n < 32

/-- A concrete instance with a partly consumed bit cache
(`next_bit = 3`, cached word 5), used by witnesses. -/
def sCache : WellState := { state := zeroSeed, n := 0, next_bit := 3, bit_state := 5 }

/-- A concrete heap instance whose state array lives at address 0, used
by witnesses. -/
def wRef0 : WellRef := { stateRef := 0, n := 0, next_bit := 32, bit_state := 0 }

/-- The instance `wRef0` after importing the array at address 0 with
pointer 7: its state array is the fresh copy at address 1. -/
def wRef1 : WellRef := { stateRef := 1, n := 7, next_bit := 32, bit_state := 0 }

/-!
## Helper lemmas
-/

lemma toUint32_lt (x : Int) : toUint32 x < U32 := by
  unfold toUint32 U32
  omega

lemma toUint32_toSigned (q : Nat) (h : q < U32) : toUint32 (toSigned q) = q := by
  unfold toUint32 toSigned U32 at *
  split <;> omega

/-- `x & m` where `m` has the 32-bit pattern `2^bits - 1`, `bits ≤ 31`,
is the low `bits` bits of `x`, read as a nonnegative integer. -/
lemma jsAnd_mask (x m : Int) (bits : Nat) (hb : bits ≤ 31)
    (hm : toUint32 m = 2 ^ bits - 1) :
    jsAnd x m = ((toUint32 x % 2 ^ bits : Nat) : Int) := by
  unfold jsAnd
  rw [hm]
  have hand : Nat.land (toUint32 x) (2 ^ bits - 1) = toUint32 x % 2 ^ bits :=
    Nat.and_pow_two_sub_one_eq_mod (toUint32 x) bits
  rw [hand]
  have hlt : toUint32 x % 2 ^ bits < 2 ^ 31 :=
    lt_of_lt_of_le (Nat.mod_lt _ (Nat.pos_pow_of_pos bits (by norm_num)))
      (Nat.pow_le_pow_right (by norm_num) hb)
  unfold toSigned
  rw [if_pos hlt]

lemma toUint32_positive_mask : toUint32 positive_mask = 2 ^ 31 - 1 := by decide

/-- `rand false` masks the fresh word with `positive_mask`: its value is
the low 31 bits of the raw word. -/
lemma rand_false_eq (s : WellState) :
    (rand false s).1 = ((toUint32 (toSigned (randStep s).1) % 2 ^ 31 : Nat) : Int) := by
  show jsAnd (toSigned (randStep s).1) positive_mask = _
  exact jsAnd_mask _ _ 31 le_rfl toUint32_positive_mask

/-- `rand false` always lies in `[0, 2^31)`, for every state. -/
lemma rand_false_bounds (s : WellState) :
    0 ≤ (rand false s).1 ∧ (rand false s).1 < 2 ^ 31 := by
  rw [rand_false_eq]
  constructor
  · exact Int.natCast_nonneg _
  · exact_mod_cast Nat.mod_lt _ (by norm_num)

/-- Arithmetic right shift agrees with logical right shift on the low
`bits` bits whenever `c + bits ≤ 32`: the sign-fill only touches the bits
masked away. -/
lemma ashr32_mod (p c bits : Nat) (h : c + bits ≤ 32) :
    ashr32 p c % 2 ^ bits = p / 2 ^ c % 2 ^ bits := by
  unfold ashr32
  split
  · simp
  · have hc : c ≤ 32 := le_trans (Nat.le_add_right c bits) h
    have h32 : U32 / 2 ^ c = 2 ^ (32 - c) := by
      show 2 ^ 32 / 2 ^ c = 2 ^ (32 - c)
      exact Nat.pow_div hc (by norm_num)
    have hU : U32 = 2 ^ (32 - c) * 2 ^ c := by
      show 2 ^ 32 = _
      rw [← pow_add]
      congr 1
      omega
    have hpow : 2 ^ bits * 2 ^ (32 - c - bits) = 2 ^ (32 - c) := by
      rw [← pow_add]
      congr 1
      omega
    have hsub : U32 - U32 / 2 ^ c = 2 ^ bits * (2 ^ (32 - c - bits) * (2 ^ c - 1)) := by
      rw [h32, hU, ← Nat.mul_assoc, hpow, Nat.mul_sub, Nat.mul_one]
    rw [hsub, Nat.add_mul_mod_self_left]

lemma ashr32_zero (p : Nat) : ashr32 p 0 = p := by
  unfold ashr32
  split <;> simp [U32]

/-- The JS mask `(1 << bits) - 1` has the 32-bit pattern `2^bits - 1` for
every width in `[1, 31]` (at `bits = 31` the shift overflows to the sign
bit, but the subtraction and re-coercion land on the same pattern). -/
lemma mask_pat (bits : Nat) (h1 : 1 ≤ bits) (h2 : bits ≤ 31) :
    toUint32 (jsShl 1 bits - 1) = 2 ^ bits - 1 := by
  interval_cases bits <;> decide

/-!
## Claims
-/

/-- C1: for the generator whose state vector is all zero except the word
at index 3 equals 1, with pointer 0, the first call to `rand(false)`
returns exactly 129. -/
theorem rand_refVector2 :
    (mkWELL seedC1).map (fun s => (rand false s).1) = .ok 129 := by
  rfl

/-- C2 counterexample: a successful `set_state` with pointer argument 32
stores pointer 32 itself, not `32 mod 32 = 0`: the pointer is stored as
given, without modulo-32 reduction. -/
theorem set_state_pointer_cex :
    set_state zeroSeed 32 { state := zeroSeed, n := 0, next_bit := 32, bit_state := 0 } =
      .ok { state := zeroSeed, n := 32, next_bit := 32, bit_state := 0 } ∧
    (32 : Int) % 32 = 0 ∧ (32 : Int) ≠ 0 := by
  refine ⟨rfl, by decide, by decide⟩

/-- C2 amended: a successful `set_state` stores the pointer argument as
given (`this._n = sp || 0`, the identity on integers) together with the
supplied vector; no modulo-32 reduction happens at import time. -/
theorem set_state_pointer_amended (v : List Int) (sp : Int) (s : WellState)
    (h : v.length = 32) :
    set_state v sp s = .ok { s with n := sp, state := v } := by
  unfold set_state
  rw [if_neg (by omega)]

/-- Witness for `set_state_pointer_amended`. -/
theorem set_state_pointer_amended_w :
    zeroSeed.length = 32 ∧
    set_state zeroSeed 33 { state := [], n := 0, next_bit := 0, bit_state := 0 } =
      .ok { state := zeroSeed, n := 33, next_bit := 0, bit_state := 0 } :=
  ⟨by decide, set_state_pointer_amended zeroSeed 33 _ (by decide)⟩

/-- C3 counterexample: a successful `set_state` on an instance whose bit
cache is partly consumed (`next_bit = 3`) leaves `next_bit` at 3 (not the
empty value 32), and the next `randBits(3)` serves stale cached bits with
no transition step: state vector, pointer and cached word are unchanged. -/
theorem set_state_cache_cex :
    set_state zeroSeed 0 { state := zeroSeed, n := 0, next_bit := 3, bit_state := 5 } =
      .ok { state := zeroSeed, n := 0, next_bit := 3, bit_state := 5 } ∧
    (3 : Int) ≠ 32 ∧
    randBits 3 { state := zeroSeed, n := 0, next_bit := 3, bit_state := 5 } =
      (0, { state := zeroSeed, n := 0, next_bit := 6, bit_state := 5 }) := by
  refine ⟨rfl, by decide, by decide⟩

/-- C3 amended: construction resets the bit cache to empty
(`next_bit = 32`), but a successful `set_state`/import leaves the bit
cache fields untouched, so the next `randBits` call after a state
replacement may consume stale cached bits without a transition step. -/
theorem set_state_cache_amended (v : List Int) (sp : Int) (s : WellState)
    (h : v.length = 32) :
    (set_state v sp s).map WellState.next_bit = .ok s.next_bit ∧
    (set_state v sp s).map WellState.bit_state = .ok s.bit_state ∧
    (mkWELL v).map WellState.next_bit = .ok 32 := by
  simp [mkWELL, set_state, h, Except.map]

/-- Witness for `set_state_cache_amended`. -/
theorem set_state_cache_amended_w :
    zeroSeed.length = 32 ∧
    ((set_state zeroSeed 0 { state := zeroSeed, n := 0, next_bit := 3, bit_state := 5 }).map
        WellState.next_bit = .ok 3 ∧
      (set_state zeroSeed 0 { state := zeroSeed, n := 0, next_bit := 3, bit_state := 5 }).map
        WellState.bit_state = .ok 5 ∧
      (mkWELL zeroSeed).map WellState.next_bit = .ok 32) :=
  ⟨by decide, set_state_cache_amended zeroSeed 0 _ (by decide)⟩

/-- C6: construction or import with a vector whose length is not 32
raises the single validation error before any field is assigned; a caller
that catches it keeps its instance completely intact. -/
theorem invalid_length_no_mutation (v : List Int) (sp : Int) (s : WellState)
    (h : v.length ≠ 32) :
    set_state v sp s = .error .InvalidStateLength ∧
    mkWELL v = .error .InvalidStateLength ∧
    importCaught v sp s = s := by
  have h1 : set_state v sp s = .error .InvalidStateLength := by
    unfold set_state
    rw [if_pos h]
  refine ⟨h1, ?_, ?_⟩
  · unfold mkWELL set_state
    rw [if_pos h]
    rfl
  · unfold importCaught
    rw [h1]
    rfl

/-- Witness for `invalid_length_no_mutation`. -/
theorem invalid_length_no_mutation_w :
    ([(7 : Int)].length ≠ 32) ∧
    (set_state [(7 : Int)] 4 { state := zeroSeed, n := 1, next_bit := 3, bit_state := 5 } =
        .error .InvalidStateLength ∧
      mkWELL [(7 : Int)] = .error .InvalidStateLength ∧
      importCaught [(7 : Int)] 4 { state := zeroSeed, n := 1, next_bit := 3, bit_state := 5 } =
        { state := zeroSeed, n := 1, next_bit := 3, bit_state := 5 }) :=
  ⟨by decide, invalid_length_no_mutation [(7 : Int)] 4 _ (by decide)⟩

/-- C4 counterexample: on the valid 32-word state `seedMax` the first
transition word has all 31 low bits set, so `rand(false)` returns
`2^31 - 1` and `random(false) = (2^31-1) * (1/(2^31-1))` is exactly 1 —
not strictly below 1. -/
theorem random_sup_cex :
    (random false { state := seedMax, n := 0, next_bit := 32, bit_state := 0 }).1 = 1 ∧
    ¬ ((random false { state := seedMax, n := 0, next_bit := 32, bit_state := 0 }).1 < 1) := by
  have hr : (rand false { state := seedMax, n := 0, next_bit := 32, bit_state := 0 }).1 =
      2147483647 := by decide
  have hq : (random false { state := seedMax, n := 0, next_bit := 32, bit_state := 0 }).1 = 1 := by
    show ((rand false { state := seedMax, n := 0, next_bit := 32, bit_state := 0 }).1 : ℚ) *
        scale = 1
    rw [hr]
    norm_num [scale]
  refine ⟨hq, ?_⟩
  rw [hq]
  exact lt_irrefl 1

/-- C4 amended: for every generator state, `random(false)` lies in the
closed interval `[0, 1]`; the upper end is attained exactly when
`rand(false)` returns `2^31 - 1`. -/
theorem random_range_amended (s : WellState) :
    0 ≤ (random false s).1 ∧ (random false s).1 ≤ 1 := by
  obtain ⟨h0, hlt⟩ := rand_false_bounds s
  have hdef : (random false s).1 = ((rand false s).1 : ℚ) * scale := rfl
  have hsc : (0 : ℚ) < scale := by norm_num [scale]
  have hle : ((rand false s).1 : ℚ) ≤ 2 ^ 31 - 1 := by
    have : (rand false s).1 ≤ 2 ^ 31 - 1 := by linarith
    calc ((rand false s).1 : ℚ) ≤ ((2 ^ 31 - 1 : Int) : ℚ) := by exact_mod_cast this
    _ = 2 ^ 31 - 1 := by push_cast; ring
  have hc0 : (0 : ℚ) ≤ ((rand false s).1 : ℚ) := by exact_mod_cast h0
  constructor
  · rw [hdef]
    exact mul_nonneg hc0 (le_of_lt hsc)
  · rw [hdef]
    calc ((rand false s).1 : ℚ) * scale ≤ (2 ^ 31 - 1) * scale :=
      mul_le_mul_of_nonneg_right hle (le_of_lt hsc)
    _ = 1 := by norm_num [scale]

/-- C7: `randInt(a, b)` equals `(rand(false) mod (1 + b − a)) + a`, lies
in the inclusive range `[a, b]` whenever `a ≤ b`, and the degenerate call
`randInt(5, 5)` returns 5 on every state. -/
theorem randInt_spec (a b : Int) (s : WellState) (h : a ≤ b) :
    (randInt a b s).1 = (rand false s).1 % (1 + b - a) + a ∧
    a ≤ (randInt a b s).1 ∧ (randInt a b s).1 ≤ b ∧
    (randInt 5 5 s).1 = 5 := by
  have hr := rand_false_eq s
  have hd : (0 : Int) < 1 + b - a := by omega
  have hk : (((1 + b - a).toNat : Nat) : Int) = 1 + b - a := Int.toNat_of_nonneg (le_of_lt hd)
  have hkpos : 0 < (1 + b - a).toNat := by omega
  have htmod : ∀ m q : Nat, Int.tmod (m : Int) (q : Int) = ((m % q : Nat) : Int) := fun _ _ => rfl
  have hemod : ∀ m q : Nat, (m : Int) % (q : Int) = ((m % q : Nat) : Int) := fun _ _ => rfl
  have hres : (randInt a b s).1 =
      ((toUint32 (toSigned (randStep s).1) % 2 ^ 31 % (1 + b - a).toNat : Nat) : Int) + a := by
    show Int.tmod (rand false s).1 (1 + b - a) + a = _
    rw [hr]
    conv_lhs => rw [← hk]
    rw [htmod]
  have hfirst : (randInt a b s).1 = (rand false s).1 % (1 + b - a) + a := by
    rw [hres, hr]
    conv_rhs => rw [← hk]
    rw [hemod]
  have hmod : toUint32 (toSigned (randStep s).1) % 2 ^ 31 % (1 + b - a).toNat <
      (1 + b - a).toNat := Nat.mod_lt _ hkpos
  have hcast : ((toUint32 (toSigned (randStep s).1) % 2 ^ 31 % (1 + b - a).toNat : Nat) : Int) <
      (((1 + b - a).toNat : Nat) : Int) := by exact_mod_cast hmod
  have hnn : (0 : Int) ≤
      ((toUint32 (toSigned (randStep s).1) % 2 ^ 31 % (1 + b - a).toNat : Nat) : Int) :=
    Int.natCast_nonneg _
  refine ⟨hfirst, ?_, ?_, ?_⟩
  · rw [hres]
    omega
  · rw [hres]
    omega
  · show Int.tmod (rand false s).1 (1 + 5 - 5) + 5 = 5
    rw [hr]
    norm_num

/-- Witness for `randInt_spec`. -/
theorem randInt_spec_w :
    (1 : Int) ≤ 5 ∧
    ((randInt 1 5 { state := zeroSeed, n := 0, next_bit := 32, bit_state := 0 }).1 =
        (rand false { state := zeroSeed, n := 0, next_bit := 32, bit_state := 0 }).1 %
          (1 + 5 - 1) + 1 ∧
      1 ≤ (randInt 1 5 { state := zeroSeed, n := 0, next_bit := 32, bit_state := 0 }).1 ∧
      (randInt 1 5 { state := zeroSeed, n := 0, next_bit := 32, bit_state := 0 }).1 ≤ 5 ∧
      (randInt 5 5 { state := zeroSeed, n := 0, next_bit := 32, bit_state := 0 }).1 = 5) :=
  ⟨by decide, randInt_spec 1 5 _ (by decide)⟩

/-- C8 counterexample: two generators that both successfully import the
identical vector and pointer (`zeroSeed`, 0) — but whose prior bit caches
differ (cached word 5 versus 13, both at offset 3, which `set_state`
leaves in place) — produce different outputs on the identical call
sequence `[randBits 3]`: `(5 >> 3) & 7 = 0` versus `(13 >> 3) & 7 = 1`.
Identical import alone does not guarantee identical output sequences. -/
theorem determinism_cex :
    set_state zeroSeed 0 { state := zeroSeed, n := 0, next_bit := 3, bit_state := 5 } =
      .ok { state := zeroSeed, n := 0, next_bit := 3, bit_state := 5 } ∧
    set_state zeroSeed 0 { state := zeroSeed, n := 0, next_bit := 3, bit_state := 13 } =
      .ok { state := zeroSeed, n := 0, next_bit := 3, bit_state := 13 } ∧
    (runCalls [Call.randBits 3]
        { state := zeroSeed, n := 0, next_bit := 3, bit_state := 5 }).1 = [Output.int 0] ∧
    (runCalls [Call.randBits 3]
        { state := zeroSeed, n := 0, next_bit := 3, bit_state := 13 }).1 = [Output.int 1] ∧
    (runCalls [Call.randBits 3]
        { state := zeroSeed, n := 0, next_bit := 3, bit_state := 5 }).1 ≠
      (runCalls [Call.randBits 3]
        { state := zeroSeed, n := 0, next_bit := 3, bit_state := 13 }).1 := by
  refine ⟨rfl, rfl, by decide, by decide, by decide⟩

/-- C8 amended: two generators constructed from the same 32-word seed
produce identical output sequences for every identical finite sequence of
`rand` / `random` / `randInt` / `randBits` calls; after identical imports
(same vector, same pointer) the same holds provided the two instances'
bit-cache fields (`next_bit`, `bit_state`) agreed beforehand — as they do
for freshly constructed instances.  Identical import alone is not enough,
because `set_state` leaves the bit cache in place. -/
theorem determinism_amended (seed : List Int) (sp : Int) (c1 c2 : WellState)
    (calls : List Call) (g1 g2 : WellState)
    (h : (mkWELL seed = .ok g1 ∧ mkWELL seed = .ok g2) ∨
      (set_state seed sp c1 = .ok g1 ∧ set_state seed sp c2 = .ok g2 ∧
        c1.next_bit = c2.next_bit ∧ c1.bit_state = c2.bit_state)) :
    runCalls calls g1 = runCalls calls g2 := by
  have hg : g1 = g2 := by
    rcases h with ⟨h1, h2⟩ | ⟨h1, h2, hnb, hbs⟩
    · rw [h1] at h2
      exact Except.ok.inj h2
    · unfold set_state at h1 h2
      by_cases hlen : seed.length ≠ 32
      · rw [if_pos hlen] at h1
        cases h1
      · rw [if_neg hlen] at h1 h2
        have e1 := Except.ok.inj h1
        have e2 := Except.ok.inj h2
        rw [← e1, ← e2, hnb, hbs]
  rw [hg]

/-- Witness for `determinism_amended`: two carriers with different state
vectors and pointers but equal bit caches import the same snapshot. -/
theorem determinism_amended_w :
    runCalls [Call.rand false, Call.randBits 3, Call.randInt 1 5, Call.random true]
        { state := zeroSeed, n := 0, next_bit := 32, bit_state := 0 } =
      runCalls [Call.rand false, Call.randBits 3, Call.randInt 1 5, Call.random true]
        { state := zeroSeed, n := 0, next_bit := 32, bit_state := 0 } :=
  determinism_amended zeroSeed 0 { state := [], n := 1, next_bit := 32, bit_state := 0 }
    { state := seedC1, n := 5, next_bit := 32, bit_state := 0 }
    [Call.rand false, Call.randBits 3, Call.randInt 1 5, Call.random true]
    { state := zeroSeed, n := 0, next_bit := 32, bit_state := 0 }
    { state := zeroSeed, n := 0, next_bit := 32, bit_state := 0 }
    (Or.inr ⟨rfl, rfl, rfl, rfl⟩)

lemma wf_randStep (s : WellState) (h : WF s) : WF (randStep s).2 := by
  obtain ⟨hlen, hn0, hn1⟩ := h
  unfold WF randStep
  exact ⟨by simp [hlen], Int.emod_nonneg _ (by norm_num), Int.emod_lt_of_pos _ (by norm_num)⟩

/-- C10: every extraction call preserves the invariant that the state
vector has exactly 32 words and the pointer lies in `[0, 32)`. -/
theorem wf_preserved (s : WellState) (incNeg : Bool) (a b : Int) (bits : Nat) (h : WF s) :
    WF (rand incNeg s).2 ∧ WF (random incNeg s).2 ∧ WF (randInt a b s).2 ∧
    WF (randBits bits s).2 := by
  have hr := wf_randStep s h
  refine ⟨hr, hr, wf_randStep s h, ?_⟩
  unfold randBits
  split
  · exact ⟨h.1, h.2.1, h.2.2⟩
  · exact ⟨hr.1, hr.2.1, hr.2.2⟩

/-- Witness for `wf_preserved`. -/
theorem wf_preserved_w :
    WF { state := zeroSeed, n := 0, next_bit := 32, bit_state := 0 } ∧
    (WF (rand false { state := zeroSeed, n := 0, next_bit := 32, bit_state := 0 }).2 ∧
      WF (random false { state := zeroSeed, n := 0, next_bit := 32, bit_state := 0 }).2 ∧
      WF (randInt 1 5 { state := zeroSeed, n := 0, next_bit := 32, bit_state := 0 }).2 ∧
      WF (randBits 3 { state := zeroSeed, n := 0, next_bit := 32, bit_state := 0 }).2) :=
  ⟨⟨by decide, by decide, by decide⟩,
    wf_preserved _ false 1 5 3 ⟨by decide, by decide, by decide⟩⟩

lemma ashr32_lt (p c : Nat) (hc : c ≤ 32) (hp : p < U32) : ashr32 p c < U32 := by
  unfold ashr32
  split
  · have h1 := Nat.div_le_self p (2 ^ c)
    omega
  · have h2 : U32 / 2 ^ c = 2 ^ (32 - c) := by
      show 2 ^ 32 / 2 ^ c = 2 ^ (32 - c)
      exact Nat.pow_div hc (by norm_num)
    have h3 : U32 / 2 ^ c ≤ U32 := Nat.div_le_self _ _
    have hU : U32 = 2 ^ (32 - c) * 2 ^ c := by
      show 2 ^ 32 = _
      rw [← pow_add]
      congr 1
      omega
    have h4 : p / 2 ^ c < 2 ^ (32 - c) := by
      rw [Nat.div_lt_iff_lt_mul (Nat.pos_pow_of_pos c (by norm_num))]
      rw [← hU]
      exact hp
    omega

/-- C5: with `1 ≤ bits ≤ 31` and a cache offset in `[0, 32]`: when the
cache still holds `bits` unused bits, `randBits` advances the offset by
`bits`, leaves the state vector, pointer and cached word untouched (no
transition step), and returns the cached word logically shifted right by
the old offset and masked to `bits` bits; otherwise it refills the cache
with `rand(true)`, sets the offset to `bits`, and returns the new word
masked to `bits` bits.  In both cases the result lies in
`[0, 2^bits − 1]`. -/
theorem randBits_spec (bits : Nat) (s : WellState) (h1 : 1 ≤ bits) (h2 : bits ≤ 31)
    (h3 : 0 ≤ s.next_bit) (h4 : s.next_bit ≤ 32) :
    ((bits : Int) + s.next_bit ≤ 32 →
      randBits bits s =
        (((toUint32 s.bit_state / 2 ^ s.next_bit.toNat % 2 ^ bits : Nat) : Int),
          { s with next_bit := s.next_bit + bits })) ∧
    (¬ (bits : Int) + s.next_bit ≤ 32 →
      randBits bits s =
        (((toUint32 (rand true s).1 % 2 ^ bits : Nat) : Int),
          { (rand true s).2 with bit_state := (rand true s).1, next_bit := bits })) ∧
    0 ≤ (randBits bits s).1 ∧ (randBits bits s).1 ≤ 2 ^ bits - 1 := by
  have hmask := mask_pat bits h1 h2
  have hbits1 : (1 : Int) ≤ (bits : Int) := by exact_mod_cast h1
  have hhit : (bits : Int) + s.next_bit ≤ 32 →
      randBits bits s =
        (((toUint32 s.bit_state / 2 ^ s.next_bit.toNat % 2 ^ bits : Nat) : Int),
          { s with next_bit := s.next_bit + bits }) := by
    intro hc
    have hnb31 : s.next_bit < 32 := by omega
    have hcmod : s.next_bit % 32 = s.next_bit := Int.emod_eq_of_lt h3 hnb31
    have hclt : s.next_bit.toNat + bits ≤ 32 := by omega
    have hred : randBits bits s =
        (jsAnd (jsAshr s.bit_state s.next_bit) (jsShl 1 bits - 1),
          { s with next_bit := s.next_bit + bits }) := by
      simp only [randBits]
      rw [if_pos hc]
    have hval : toUint32 (jsAshr s.bit_state s.next_bit) % 2 ^ bits =
        toUint32 s.bit_state / 2 ^ s.next_bit.toNat % 2 ^ bits := by
      unfold jsAshr
      rw [hcmod]
      rw [toUint32_toSigned _ (ashr32_lt _ _ (by omega) (toUint32_lt _))]
      exact ashr32_mod _ _ _ hclt
    rw [hred, jsAnd_mask _ _ bits h2 hmask, hval]
  have hmiss : ¬ (bits : Int) + s.next_bit ≤ 32 →
      randBits bits s =
        (((toUint32 (rand true s).1 % 2 ^ bits : Nat) : Int),
          { (rand true s).2 with bit_state := (rand true s).1, next_bit := bits }) := by
    intro hc
    have hred : randBits bits s =
        (jsAnd (jsAshr (rand true s).1 0) (jsShl 1 bits - 1),
          { (rand true s).2 with bit_state := (rand true s).1, next_bit := bits }) := by
      simp only [randBits]
      rw [if_neg hc]
    have hzero : jsAshr (rand true s).1 0 = toSigned (toUint32 (rand true s).1) := by
      unfold jsAshr
      rw [show ((0 : Int) % 32).toNat = 0 from rfl, ashr32_zero]
    rw [hred, hzero, jsAnd_mask _ _ bits h2 hmask, toUint32_toSigned _ (toUint32_lt _)]
  refine ⟨hhit, hmiss, ?_⟩
  have hpow : ((2 ^ bits : Nat) : Int) = 2 ^ bits := by push_cast; ring
  by_cases hc : (bits : Int) + s.next_bit ≤ 32
  · rw [hhit hc]
    refine ⟨Int.natCast_nonneg _, ?_⟩
    have hm : toUint32 s.bit_state / 2 ^ s.next_bit.toNat % 2 ^ bits < 2 ^ bits :=
      Nat.mod_lt _ (Nat.pos_pow_of_pos bits (by norm_num))
    have hcast : ((toUint32 s.bit_state / 2 ^ s.next_bit.toNat % 2 ^ bits : Nat) : Int) <
        ((2 ^ bits : Nat) : Int) := by exact_mod_cast hm
    show ((toUint32 s.bit_state / 2 ^ s.next_bit.toNat % 2 ^ bits : Nat) : Int) ≤ 2 ^ bits - 1
    omega
  · rw [hmiss hc]
    refine ⟨Int.natCast_nonneg _, ?_⟩
    have hm : toUint32 (rand true s).1 % 2 ^ bits < 2 ^ bits :=
      Nat.mod_lt _ (Nat.pos_pow_of_pos bits (by norm_num))
    have hcast : ((toUint32 (rand true s).1 % 2 ^ bits : Nat) : Int) <
        ((2 ^ bits : Nat) : Int) := by exact_mod_cast hm
    show ((toUint32 (rand true s).1 % 2 ^ bits : Nat) : Int) ≤ 2 ^ bits - 1
    omega

/-- Witness for `randBits_spec`. -/
theorem randBits_spec_w :
    (1 ≤ 3 ∧ 3 ≤ 31 ∧ (0 : Int) ≤ sCache.next_bit ∧ sCache.next_bit ≤ 32) ∧
    ((((3 : Nat) : Int) + sCache.next_bit ≤ 32 →
      randBits 3 sCache =
        (((toUint32 sCache.bit_state / 2 ^ sCache.next_bit.toNat % 2 ^ 3 : Nat) : Int),
          { sCache with next_bit := sCache.next_bit + 3 })) ∧
    (¬ ((3 : Nat) : Int) + sCache.next_bit ≤ 32 →
      randBits 3 sCache =
        (((toUint32 (rand true sCache).1 % 2 ^ 3 : Nat) : Int),
          { (rand true sCache).2 with bit_state := (rand true sCache).1, next_bit := 3 })) ∧
    0 ≤ (randBits 3 sCache).1 ∧ (randBits 3 sCache).1 ≤ 2 ^ 3 - 1) :=
  ⟨⟨by decide, by decide, by decide, by decide⟩,
    randBits_spec 3 sCache (by decide) (by decide) (by decide) (by decide)⟩

/-- C9: `get_state` hands out a fresh copy of the internal array, and
`set_state` stores a fresh copy of the caller's array.  Mutating the
exported array afterwards never changes the generator's internal array or
the outputs of any subsequent call sequence; mutating the caller's array
after a successful import never changes the generator's internal array
(which keeps the imported snapshot) or any subsequent output. -/
theorem copy_isolation (h : Heap) (w : WellRef) (hw : w.stateRef < List.length h) :
    (∀ v cs,
      hread (hwrite (get_stateH h w).2 (get_stateH h w).1 v) w.stateRef =
        hread h w.stateRef ∧
      runCalls cs (projH (hwrite (get_stateH h w).2 (get_stateH h w).1 v) w) =
        runCalls cs (projH h w)) ∧
    (∀ src sp w2 h2, set_stateH h w src sp = .ok (w2, h2) →
      ∀ v cs,
        hread (hwrite h2 src v) w2.stateRef = hread h src ∧
        runCalls cs (projH (hwrite h2 src v) w2) = runCalls cs (projH h2 w2)) := by
  constructor
  · intro v cs
    have hne : List.length h ≠ w.stateRef := by omega
    have hkey : hread (hwrite (get_stateH h w).2 (get_stateH h w).1 v) w.stateRef =
        hread h w.stateRef := by
      show hread (hwrite (h ++ [hread h w.stateRef]) (List.length h) v) w.stateRef =
        hread h w.stateRef
      unfold hread hwrite
      simp [List.getD, List.getElem?_set_ne hne, List.getElem?_append_left hw]
    refine ⟨hkey, ?_⟩
    have hproj : projH (hwrite (get_stateH h w).2 (get_stateH h w).1 v) w = projH h w := by
      unfold projH
      rw [hkey]
    rw [hproj]
  · intro src sp w2 h2 hok v cs
    unfold set_stateH at hok
    by_cases hlen : (hread h src).length ≠ 32
    · rw [if_pos hlen] at hok
      cases hok
    · rw [if_neg hlen] at hok
      push_neg at hlen
      have hsrc : src < List.length h := by
        by_contra hge
        push_neg at hge
        have hnil : hread h src = [] := by
          unfold hread
          simp [List.getD, List.getElem?_eq_none hge]
        rw [hnil] at hlen
        simp at hlen
      have hp := Except.ok.inj hok
      obtain ⟨rfl, rfl⟩ : w2 = { w with n := sp, stateRef := List.length h } ∧
          h2 = h ++ [hread h src] :=
        ⟨(congrArg Prod.fst hp).symm, (congrArg Prod.snd hp).symm⟩
      have hne2 : src ≠ List.length h := by omega
      have hkey : hread (hwrite (h ++ [hread h src]) src v) (List.length h) =
          hread h src := by
        unfold hread hwrite
        simp [List.getD, List.getElem?_set_ne hne2, List.getElem?_concat_length]
      have hkey2 : hread (h ++ [hread h src]) (List.length h) = hread h src := by
        unfold hread
        simp [List.getD, List.getElem?_concat_length]
      refine ⟨hkey, ?_⟩
      have hproj : projH (hwrite (h ++ [hread h src]) src v)
          { w with n := sp, stateRef := List.length h } =
          projH (h ++ [hread h src]) { w with n := sp, stateRef := List.length h } := by
        unfold projH
        rw [hkey, hkey2]
      rw [hproj]

/-- Witness for `copy_isolation`. -/
theorem copy_isolation_w :
    (hread (hwrite (get_stateH [zeroSeed] wRef0).2 (get_stateH [zeroSeed] wRef0).1 [9])
        wRef0.stateRef = hread [zeroSeed] wRef0.stateRef ∧
      runCalls [Call.rand false]
          (projH (hwrite (get_stateH [zeroSeed] wRef0).2 (get_stateH [zeroSeed] wRef0).1 [9])
            wRef0) =
        runCalls [Call.rand false] (projH [zeroSeed] wRef0)) ∧
    (hread (hwrite [zeroSeed, zeroSeed] 0 [9]) wRef1.stateRef = hread [zeroSeed] 0 ∧
      runCalls [Call.randBits 3] (projH (hwrite [zeroSeed, zeroSeed] 0 [9]) wRef1) =
        runCalls [Call.randBits 3] (projH [zeroSeed, zeroSeed] wRef1)) :=
  ⟨(copy_isolation [zeroSeed] wRef0 (by decide)).1 [9] [Call.rand false],
    (copy_isolation [zeroSeed] wRef0 (by decide)).2 0 7 wRef1 [zeroSeed, zeroSeed] rfl
      [9] [Call.randBits 3]⟩
